import Mathlib

/-!
Verification of the proteinfold workflow generator.

Shallow embedding of the core logic of
`src/plugins/pegasus-ai/assets/examples/workflow_generator_proteinfold.py`:
the name predictor (`compute_output_filenames` and its helpers), the batcher
(`_batched`), the sanitizer (`_safe_name`), and the three DAG builders
(`_create_colabfold_workflow`, `_create_alphafold3_workflow`,
`_create_boltz_workflow`).

Modelling conventions:
* The tab-separated input file is modelled after `csv.DictReader` has split it:
  a `Table` is a header row (list of column names) plus data rows (lists of
  cell values).  Quote handling performed by the `csv` module itself is outside
  the model; the explicit `.strip` calls of the Python code are modelled.
* The filesystem is an explicit read-only value `FS`: the set of existing
  paths together with, for each path, the FASTA headers that
  `_read_fasta_headers` would return for it.
* Python exceptions surface as `Except PyErr`; `KeyError` arises from a
  `DictReader` row missing a column, `ValueError` from `int()` on a
  non-numeric string and from `itertools.islice` on a negative size.
* Strings are Lean `String`s; the Python string/`os.path`/`pathlib`
  operations used by the source are re-implemented below, restricted to the
  character ranges stated in their doc comments.
-/

/-- Python exception values observable from the generator's core. -/
inductive PyErr where
  | keyError (key : String)
  | valueError (msg : String)
deriving DecidableEq, Repr

/-- ASCII whitespace stripped by Python's `int()` before parsing. -/
def pyIsSpace (c : Char) : Bool :=
  c = ' ' || c = '\t' || c = '\n' || c = '\r' || c = '\x0b' || c = '\x0c'

/-- Python `str.strip('"')`: remove all leading and trailing `"` characters. -/
def pyStripQuotes (s : String) : String :=
  String.mk (((s.data.dropWhile (fun c => c = '"')).reverse.dropWhile
    (fun c => c = '"')).reverse)

/-- Python `str.lower()` restricted to ASCII letters (the only case the column
headers of this generator exercise). -/
def pyLower (s : String) : String :=
  String.mk (s.data.map Char.toLower)

/-- Digit-string check for Python `int()`: nonempty, decimal digits possibly
grouped by single interior underscores. -/
def validUnderscoreDigits (l : List Char) : Bool :=
  !l.isEmpty
    && l.all (fun c => c.isDigit || c = '_')
    && l.head? ≠ some '_'
    && l.getLast? ≠ some '_'
    && (l.zip l.tail).all (fun p => !(p.1 = '_' && p.2 = '_'))

/-- Numeric value of a digit string (underscores skipped). -/
def digitsToNat (l : List Char) : Nat :=
  (l.filter (fun c => c.isDigit)).foldl (fun n c => 10 * n + (c.toNat - '0'.toNat)) 0

/-- Python `int(s)` on ASCII input: optional surrounding whitespace, optional
sign, decimal digits with single interior underscores; `none` models the
`ValueError` raised on anything else. -/
def pyInt (s : String) : Option Int :=
  let t := ((s.data.dropWhile pyIsSpace).reverse.dropWhile pyIsSpace).reverse
  match t with
  | '+' :: rest => if validUnderscoreDigits rest then some (digitsToNat rest) else none
  | '-' :: rest => if validUnderscoreDigits rest then some (-(digitsToNat rest : Int)) else none
  | rest => if validUnderscoreDigits rest then some (digitsToNat rest) else none

/-- Python `str.endswith`, computed on the character lists. -/
def pyEndsWith (s suf : String) : Bool := suf.data.isSuffixOf s.data

/-- Python `str.startswith`, computed on the character lists. -/
def pyStartsWith (s pre : String) : Bool := pre.data.isPrefixOf s.data

/-- Left-to-right, non-overlapping replacement of the nonempty pattern
`p :: ps` by `rep`, as Python `str.replace` performs.  The trailing counter
holds how many already-consumed characters of a match remain to be skipped;
scanning resumes once it reaches zero. -/
def replaceAllAux (p : Char) (ps rep : List Char) : List Char → Nat → List Char
  | [], _ => []
  | _ :: xs, k + 1 => replaceAllAux p ps rep xs k
  | x :: xs, 0 =>
    if (p :: ps).isPrefixOf (x :: xs) then
      rep ++ replaceAllAux p ps rep xs ps.length
    else
      x :: replaceAllAux p ps rep xs 0

/-- Python `str.replace(pat, rep)` for a nonempty pattern (the only use in
the source is the pattern `"_data.json"`). -/
def pyReplace (s pat rep : String) : String :=
  match pat.data with
  | [] => s
  | p :: ps => String.mk (replaceAllAux p ps rep.data s.data 0)

/-- Index of the last occurrence of `c`, as used by Python `str.rfind`. -/
def pyRfindAux (c : Char) : List Char → Option Nat
  | [] => none
  | x :: xs =>
    match pyRfindAux c xs with
    | some k => some (k + 1)
    | none => if x = c then some 0 else none

/-- POSIX `os.path.isabs`. -/
def pyIsAbs (p : String) : Bool := pyStartsWith p "/"

/-- POSIX `os.path.join(a, b)`, in the two-argument form used by
`_get_entry_names`. -/
def pyJoin (a b : String) : String :=
  if pyStartsWith b "/" then b
  else if a = "" || pyEndsWith a "/" then a ++ b
  else a ++ "/" ++ b

/-- Final path component, as `pathlib.PurePosixPath(p).name` for the
slash-free or relative file names this generator feeds it. -/
def pyBasenameChars (s : String) : List Char :=
  match pyRfindAux '/' s.data with
  | none => s.data
  | some k => s.data.drop (k + 1)

/-- Python `pathlib.Path(p).stem`: the final component with its last suffix removed;
a leading dot or a bare trailing dot is not a suffix. -/
def pyStem (s : String) : String :=
  let nm := pyBasenameChars s
  match pyRfindAux '.' nm with
  | none => String.mk nm
  | some i =>
    if 0 < i ∧ i < nm.length - 1 then String.mk (nm.take i) else String.mk nm

/-- Python `os.path.splitext(p)[0]`: drop the extension starting at the last dot of
the final component, provided some earlier character of that component is not
a dot (mirrors `posixpath.splitext`). -/
def pySplitextRoot (s : String) : String :=
  let p := s.data
  match pyRfindAux '.' p with
  | none => s
  | some d =>
    let sepN : Nat :=
      match pyRfindAux '/' p with
      | none => 0
      | some k => k + 1
    if sepN ≤ d ∧ ((p.take d).drop sepN).any (fun c => c ≠ '.') then
      String.mk (p.take d)
    else s

/-- Extra word characters of the Latin-1 range for Python's Unicode-aware
regex class `\w` (CPython: `ch.isalnum() or ch == '_'`): the Latin-1 letters
ª µ º À–Ö Ø–ö ø–ÿ and the numeric characters ² ³ ¹ ¼ ½ ¾.  Code points at
`0x100` and above are outside the model; every theorem about the sanitizer
restricts its input to characters below `0x100`. -/
def latin1ExtraWord (n : Nat) : Bool :=
  n = 0xAA || n = 0xB2 || n = 0xB3 || n = 0xB5 || n = 0xB9 || n = 0xBA
    || (0xBC ≤ n && n ≤ 0xBE) || (0xC0 ≤ n && n ≤ 0xD6)
    || (0xD8 ≤ n && n ≤ 0xF6) || (0xF8 ≤ n && n ≤ 0xFF)

/-- Python regex `\w` (Unicode flavour, as used by `re.sub` in `_safe_name`),
exact on code points below `0x100`. -/
def pyIsWordChar (c : Char) : Bool :=
  c.isAlphanum || c = '_' || latin1ExtraWord c.toNat

/-- The sanitizer `_safe_name`, i.e. `re.sub` with pattern "not a word
character, dash, underscore or dot": replace every character
that is neither a `\w` word character nor `-`, `_`, `.` with `_`. -/
def safeName (s : String) : String :=
  String.mk (s.data.map (fun c =>
    if pyIsWordChar c || c = '-' || c = '_' || c = '.' then c else '_'))

/-- The read-only filesystem view consulted during name prediction:
which paths exist, and the FASTA headers `_read_fasta_headers` extracts
from each existing path. -/
structure FS where
  existing : List String
  fastaHeaders : String → List String

/-- The tab-separated input after `csv` splitting: header row and data rows. -/
structure Table where
  header : List String
  rows : List (List String)
deriving Repr

/-- A table whose data rows all have exactly one cell per header column
(`csv.DictReader` pads or truncates ragged rows instead; ragged rows are
outside the model). -/
def Rectangular (t : Table) : Prop :=
  ∀ r ∈ t.rows, r.length = t.header.length

instance (t : Table) : Decidable (Rectangular t) := by
  unfold Rectangular; infer_instance

/-- Header normalisation of `compute_output_filenames` /
`find_fasta_references`: `h.lower().strip('"')` per column name. -/
def normalizeHeader (h : List String) : List String :=
  h.map (fun s => pyStripQuotes (pyLower s))

/-- The `DictReader` cell lookup: the value of column `col` in `row` (on duplicate
column names the later column wins, as in `dict(zip(fieldnames, row))`). -/
def colValue (hdr row : List String) (col : String) : String :=
  match ((hdr.zip row).filter (fun p => p.1 == col)).getLast? with
  | some p => p.2
  | none => ""

/-- A `mapM` over `Except`, written out structurally: stop at the first error,
as the row loop of `compute_output_filenames` does. -/
def mapExcept (f : α → Except PyErr β) : List α → Except PyErr (List β)
  | [] => .ok []
  | x :: xs =>
    match f x with
    | .error e => .error e
    | .ok y =>
      match mapExcept f xs with
      | .error e => .error e
      | .ok ys => .ok (y :: ys)

/-- One iteration of the row loop of `compute_output_filenames`:
`entry = row["entry"].strip('"')`, `bait = int(row["bait"].strip('"'))`.
A missing column is a `KeyError`; a non-numeric bait cell a `ValueError`. -/
def parseRow (hdr row : List String) : Except PyErr (String × Int) :=
  if "entry" ∈ hdr then
    if "bait" ∈ hdr then
      match pyInt (pyStripQuotes (colValue hdr row "bait")) with
      | some n => .ok (pyStripQuotes (colValue hdr row "entry"), n)
      | none => .error (.valueError (pyStripQuotes (colValue hdr row "bait")))
    else .error (.keyError "bait")
  else .error (.keyError "entry")

/-- The `entries` list built by the row loop of `compute_output_filenames`. -/
def parseEntries (t : Table) : Except PyErr (List (String × Int)) :=
  mapExcept (parseRow (normalizeHeader t.header)) t.rows

/-- The bait partition: entries whose bait flag equals 1, in table order. -/
def baitsOf (es : List (String × Int)) : List String :=
  (es.filter (fun e => e.2 = 1)).map (fun e => e.1)

/-- The prey partition: entries whose bait flag equals 0, in table order. -/
def preysOf (es : List (String × Int)) : List String :=
  (es.filter (fun e => e.2 = 0)).map (fun e => e.1)

/-- Pipeline mode selected by `--mode`. -/
inductive Mode where
  | colabfold
  | alphafold3
  | boltz
deriving DecidableEq, Repr

/-- The extension rule `ext = "json" if mode == "alphafold3" else "fasta"`. -/
def extOf (m : Mode) : String :=
  if m = .alphafold3 then "json" else "fasta"

/-- The expansion `_get_entry_names`: FASTA entries expand to the headers of the referenced
file, falling back to the file's stem if the file is missing or has no
headers; any other entry is its own singleton display name. -/
def getEntryNames (fs : FS) (workdir entry : String) : List String :=
  if pyEndsWith entry ".fasta" || pyEndsWith entry ".fa" then
    let path := if pyIsAbs entry then entry else pyJoin workdir entry
    if path ∈ fs.existing then
      let headers := fs.fastaHeaders path
      if headers = [] then [pyStem entry] else headers
    else [pyStem entry]
  else [entry]

/-- One emitted artifact name: the sanitized bait name, an underscore, the
sanitized prey name, a dot, and the extension. -/
def fmtName (ext bn pn : String) : String :=
  safeName bn ++ "_" ++ safeName pn ++ "." ++ ext

/-- The filename accumulation loop of `compute_output_filenames`: bait row,
then prey row, then bait display name, then prey display name. -/
def predictedNames (m : Mode) (fs : FS) (wd : String)
    (es : List (String × Int)) : List String :=
  (baitsOf es).flatMap (fun bait =>
    let baitNames := getEntryNames fs wd bait
    (preysOf es).flatMap (fun prey =>
      let preyNames := getEntryNames fs wd prey
      baitNames.flatMap (fun bn => preyNames.map (fun pn => fmtName (extOf m) bn pn))))

/-- The predictor `compute_output_filenames(tsv_path, mode, workdir)`. -/
def computeOutputFilenames (t : Table) (m : Mode) (fs : FS) (wd : String) :
    Except PyErr (List String) :=
  (parseEntries t).map (predictedNames m fs wd)

/-- Modelled from the spec: §4.1 step 4 prescribes "full nested iteration
order: outer bait row, then bait-name expansion, then prey row, then
prey-name expansion" — the bait-name loop OUTSIDE the prey-row loop.  This
definition follows those words; it exists only to be compared against
`computeOutputFilenames`, which follows the source. -/
def specPredictArtifactNames (t : Table) (m : Mode) (fs : FS) (wd : String) :
    Except PyErr (List String) :=
  (parseEntries t).map (fun es =>
    (baitsOf es).flatMap (fun bait =>
      (getEntryNames fs wd bait).flatMap (fun bn =>
        (preysOf es).flatMap (fun prey =>
          (getEntryNames fs wd prey).map (fun pn => fmtName (extOf m) bn pn)))))

/-- The scan `find_fasta_references`: the (quote-stripped) entry cells that end in
`.fasta` or `.fa`, in row order; a `KeyError` if some row lacks the entry
column. -/
def findFastaReferences (t : Table) : Except PyErr (List String) :=
  let hdr := normalizeHeader t.header
  if t.rows = [] then .ok []
  else if "entry" ∈ hdr then
    .ok (((t.rows.map (fun r => pyStripQuotes (colValue hdr r "entry"))).filter
      (fun e => pyEndsWith e ".fasta" || pyEndsWith e ".fa")))
  else .error (.keyError "entry")

/-- Core of `_batched` for a positive chunk size `m + 1`: repeatedly take a
full chunk and recurse on the rest; the final chunk may be short. -/
def chunkCore (m : Nat) (l : List α) : List (List α) :=
  match l with
  | [] => []
  | x :: xs => (x :: xs).take (m + 1) :: chunkCore m ((x :: xs).drop (m + 1))
termination_by l.length
decreasing_by simp; omega

/-- The batcher `_batched` for a non-negative size `n`: with `n = 0`, `islice(it, 0)` is
immediately empty, so the generator yields no batches at all. -/
def chunkList (n : Nat) (l : List α) : List (List α) :=
  match n with
  | 0 => []
  | m + 1 => chunkCore m l

/-- The batcher `_batched(iterable, n)` with the Python `int` argument
of the inf-batch option:
a negative `n` makes `islice` raise `ValueError` on its first call. -/
def pyBatched (l : List α) (n : Int) : Except PyErr (List (List α)) :=
  if n < 0 then .error (.valueError "islice")
  else .ok (chunkList n.toNat l)

/-- An `enumerate`-style map, as the `batch_idx` loops of the builders use. -/
def mapWithIdx (f : Nat → α → β) : Nat → List α → List β
  | _, [] => []
  | i, x :: xs => f i x :: mapWithIdx f (i + 1) xs

/-- One node of the generated DAG: Pegasus job id, transformation name, and
the logical file names consumed and produced.  Argument tokens, labels and
stage-out flags of the Python `Job` objects never influence the graph
topology the claims are about and are not modelled. -/
structure Job where
  id : String
  tf : String
  inputs : List String
  outputs : List String
deriving DecidableEq, Repr

/-- The dependency edge Pegasus infers (`infer_dependencies=True`) between
job positions `i` and `j`: some file is an output of job `i` and an input of
job `j`. -/
def impliedEdge (g : List Job) (i j : Nat) : Prop :=
  ∃ (hi : i < g.length) (hj : j < g.length) (a : String),
    a ∈ (g.get ⟨i, hi⟩).outputs ∧ a ∈ (g.get ⟨j, hj⟩).inputs

/-- Acyclicity of the implied-edge relation: no job position reaches itself
through a nonempty chain of implied edges. -/
def AcyclicGraph (g : List Job) : Prop :=
  ∀ i, ¬ Relation.TransGen (impliedEdge g) i i

/-- Number of jobs of `g` that list `a` among their outputs. -/
def producersCount (g : List Job) (a : String) : Nat :=
  g.countP (fun j => decide (a ∈ j.outputs))

/-- The ranking input name of a stage-1 FASTA name: its stem with
`_toprank.json` appended. -/
def toprankName (fn : String) : String :=
  pySplitextRoot fn ++ "_toprank.json"

/-- The job list built by `_create_colabfold_workflow` from the predicted
names `fns` and the referenced FASTA files `refs`: one `process_tsv` job, one
`colabfold_batch` job per predicted name, one `rank_af` job. -/
def colabfoldJobs (tsv : String) (refs fns : List String) : List Job :=
  { id := "process_tsv", tf := "process_tsv",
    inputs := tsv :: refs, outputs := fns } ::
  (fns.map (fun fn =>
    { id := "cf_" ++ pySplitextRoot fn, tf := "colabfold_batch",
      inputs := [fn], outputs := [toprankName fn] })) ++
  [{ id := "rank_af", tf := "rank_af",
     inputs := fns.map toprankName,
     outputs := ["colabfold_ranked_results.tsv"] }]

/-- The builder `_create_colabfold_workflow` (with `tsv` the basename of the
input table file): predict the names, collect the FASTA
references, and register the jobs. -/
def createColabfoldWorkflow (tsv : String) (t : Table) (fs : FS) (wd : String) :
    Except PyErr (List Job) := do
  let fns ← computeOutputFilenames t .colabfold fs wd
  let refs ← findFastaReferences t
  .ok (colabfoldJobs tsv refs fns)

/-- The per-member Boltz output name: the stem with `_confidence.json`
appended. -/
def boltzConf (fn : String) : String :=
  pySplitextRoot fn ++ "_confidence.json"

/-- The job list built by `_create_boltz_workflow` once the batches are
formed: `process_tsv`, one `boltz_predict` job per batch, `rank_af`. -/
def boltzJobs (tsv : String) (refs fns : List String)
    (batches : List (List String)) : List Job :=
  { id := "process_tsv", tf := "process_tsv",
    inputs := tsv :: refs, outputs := fns } ::
  mapWithIdx (fun i b =>
    { id := "predict_b" ++ toString i, tf := "boltz_predict",
      inputs := b, outputs := b.map boltzConf }) 0 batches ++
  [{ id := "rank_af", tf := "rank_af",
     inputs := batches.flatMap (fun b => b.map boltzConf),
     outputs := ["boltz_ranked_results.tsv"] }]

/-- The builder `_create_boltz_workflow`, including the `_batched` call on the stage-1
outputs with the configured `--inf-batch` size. -/
def createBoltzWorkflow (tsv : String) (t : Table) (fs : FS) (wd : String)
    (infBatch : Int) : Except PyErr (List Job) := do
  let fns ← computeOutputFilenames t .boltz fs wd
  let refs ← findFastaReferences t
  let batches ← pyBatched fns infBatch
  .ok (boltzJobs tsv refs fns batches)

/-- The AlphaFold3 MSA output name: the stem of a stage-1 JSON name with
`_data.json` appended. -/
def msaName (fn : String) : String :=
  pySplitextRoot fn ++ "_data.json"

/-- The AlphaFold3 fold output name: every occurrence of `_data.json`
removed, then `_summary_confidences.json` appended (Python
`str.replace` substitutes every occurrence). -/
def af3Conf (m : String) : String :=
  pyReplace m "_data.json" "" ++ "_summary_confidences.json"

/-- The job list built by `_create_alphafold3_workflow`: `process_tsv`, one
`af3_msa` job per predicted name, one `af3_fold` job per batch of MSA
outputs, `rank_af`. -/
def af3Jobs (tsv : String) (refs fns : List String)
    (batches : List (List String)) : List Job :=
  { id := "process_tsv", tf := "process_tsv",
    inputs := tsv :: refs, outputs := fns } ::
  (fns.map (fun fn =>
    { id := "msa_" ++ pySplitextRoot fn, tf := "af3_msa",
      inputs := [fn], outputs := [msaName fn] })) ++
  mapWithIdx (fun i b =>
    { id := "fold_b" ++ toString i, tf := "af3_fold",
      inputs := b, outputs := b.map af3Conf }) 0 batches ++
  [{ id := "rank_af", tf := "rank_af",
     inputs := batches.flatMap (fun b => b.map af3Conf),
     outputs := ["alphafold3_ranked_results.tsv"] }]

/-- The builder `_create_alphafold3_workflow`, batching the per-pair MSA
output names. -/
def createAlphafold3Workflow (tsv : String) (t : Table) (fs : FS) (wd : String)
    (infBatch : Int) : Except PyErr (List Job) := do
  let fns ← computeOutputFilenames t .alphafold3 fs wd
  let refs ← findFastaReferences t
  let batches ← pyBatched (fns.map msaName) infBatch
  .ok (af3Jobs tsv refs fns batches)

/-! ## Concrete fixtures used by witnesses and counterexamples -/

/-- A filesystem with no FASTA files present. -/
def fsEmpty : FS := { existing := [], fastaHeaders := fun _ => [] }

/-- A filesystem holding one FASTA file `w/x.fasta` with two record headers. -/
def fsX : FS :=
  { existing := ["w/x.fasta"],
    fastaHeaders := fun p => if p = "w/x.fasta" then ["B1", "B2"] else [] }

/-- One bait `A`, one prey `B`; the header exercises case normalisation. -/
def tblBasic : Table :=
  { header := ["Entry", "bait"], rows := [["A", "1"], ["B", "0"]] }

/-- One bait and two distinct preys `B?`, `B!` that sanitize to the same
display name `B_`. -/
def tblDup : Table :=
  { header := ["Entry", "bait"], rows := [["A", "1"], ["B?", "0"], ["B!", "0"]] }

/-- The bait is a two-record FASTA file, plus two literal preys. -/
def tblFasta : Table :=
  { header := ["entry", "bait"], rows := [["x.fasta", "1"], ["P1", "0"], ["P2", "0"]] }

/-- A well-formed table whose second row carries bait value `2`. -/
def tblBait2 : Table :=
  { header := ["entry", "bait"], rows := [["A", "1"], ["B", "2"]] }

/-- A table with one bait and no preys. -/
def tblNoPrey : Table :=
  { header := ["entry", "bait"], rows := [["A", "1"]] }

/-- A table whose bait cell is not numeric. -/
def tblBadBait : Table :=
  { header := ["entry", "bait"], rows := [["A", "x"]] }

/-! ## Helper lemmas -/

theorem latin1ExtraWord_eq_false {n : Nat} (h : n < 128) :
    latin1ExtraWord n = false := by
  simp only [latin1ExtraWord, Bool.or_eq_false_iff, Bool.and_eq_false_iff,
    decide_eq_false_iff_not]
  omega

/-- The ASCII keep-class of the sanitizer as the spec words it:
`[A-Za-z0-9_.-]`. -/
def asciiKeepChar (c : Char) : Bool :=
  c.isAlphanum || c = '-' || c = '_' || c = '.'

theorem mapExcept_ok_of_ok {f : α → Except PyErr β} {l : List α} {ys : List β}
    (h : mapExcept f l = .ok ys) : ∀ x ∈ l, ∃ y, f x = .ok y := by
  induction l generalizing ys with
  | nil => simp
  | cons x xs ih =>
    intro a ha
    cases hfx : f x with
    | error e => rw [mapExcept, hfx] at h; cases h
    | ok y =>
      rw [mapExcept, hfx] at h
      cases hrec : mapExcept f xs with
      | error e => rw [hrec] at h; cases h
      | ok ys2 =>
        rcases List.mem_cons.mp ha with rfl | ha2
        · exact ⟨y, hfx⟩
        · exact ih hrec a ha2

theorem mapExcept_error_iff (f : α → Except PyErr β) (l : List α) :
    (∃ e, mapExcept f l = .error e) ↔ ∃ x ∈ l, ∃ e, f x = .error e := by
  induction l with
  | nil => simp [mapExcept]
  | cons x xs ih =>
    cases hfx : f x with
    | error e =>
      constructor
      · intro _
        exact ⟨x, List.mem_cons_self x xs, e, hfx⟩
      · intro _
        refine ⟨e, ?_⟩
        rw [mapExcept, hfx]
    | ok y =>
      cases hrec : mapExcept f xs with
      | error e =>
        constructor
        · intro _
          rcases ih.mp ⟨e, hrec⟩ with ⟨a, ha, e2, he2⟩
          exact ⟨a, List.mem_cons_of_mem x ha, e2, he2⟩
        · intro _
          refine ⟨e, ?_⟩
          rw [mapExcept, hfx, hrec]
      | ok ys =>
        constructor
        · rintro ⟨e, he⟩
          rw [mapExcept, hfx, hrec] at he
          cases he
        · rintro ⟨a, ha, e2, he2⟩
          rcases List.mem_cons.mp ha with rfl | ha2
          · rw [hfx] at he2; cases he2
          · rcases ih.mpr ⟨a, ha2, e2, he2⟩ with ⟨e3, he3⟩
            rw [hrec] at he3; cases he3

theorem parseRow_error_iff (hdr row : List String) :
    (∃ e, parseRow hdr row = .error e) ↔
      ("entry" ∉ hdr ∨ "bait" ∉ hdr ∨
        pyInt (pyStripQuotes (colValue hdr row "bait")) = none) := by
  by_cases h1 : "entry" ∈ hdr
  · by_cases h2 : "bait" ∈ hdr
    · cases hpi : pyInt (pyStripQuotes (colValue hdr row "bait")) with
      | none => simp [parseRow, h1, h2, hpi]
      | some n => simp [parseRow, h1, h2, hpi]
    · simp [parseRow, h1, h2]
  · simp [parseRow, h1]

/-! ## Claim C8 — sanitizer -/

/-- C8 counterexample: the claim says every character outside
`[A-Za-z0-9_.-]` is replaced by `_`, in particular a non-ASCII letter.  But
Python's `\w` is Unicode-aware: `_safe_name("é")` keeps `é` unchanged
instead of producing `"_"`. -/
theorem claimC8_counterexample :
    safeName "é" = "é" ∧ safeName "é" ≠ "_" := by
  constructor
  · rfl
  · decide

/-- C8 (amended): on ASCII input the sanitizer replaces exactly the
characters outside `[A-Za-z0-9_.-]` with `_`; non-ASCII word characters
(e.g. Latin-1 letters) are kept unchanged rather than replaced. -/
theorem claimC8_amended (s : String) (h : ∀ c ∈ s.data, c.toNat < 128) :
    safeName s = String.mk (s.data.map (fun c => if asciiKeepChar c then c else '_')) := by
  unfold safeName
  congr 1
  refine List.map_congr_left (fun c hc => ?_)
  have hl := latin1ExtraWord_eq_false (h c hc)
  unfold pyIsWordChar asciiKeepChar
  rw [hl]
  cases ha : c.isAlphanum <;> by_cases h1 : c = '-' <;> by_cases h2 : c = '_' <;>
    by_cases h3 : c = '.' <;> simp [ha, h1, h2, h3]

/-- Witness for C8 (amended) at the concrete input `"a b/c"`. -/
theorem claimC8_amended_witness :
    (∀ c ∈ ("a b/c" : String).data, c.toNat < 128) ∧
      safeName "a b/c" =
        String.mk (("a b/c" : String).data.map (fun c => if asciiKeepChar c then c else '_')) :=
  ⟨by decide, claimC8_amended "a b/c" (by decide)⟩

/-! ## Claim C9 — missing FASTA file -/

/-- C9: an entry naming a `.fasta`/`.fa` file that does not exist expands to
the singleton list holding the file's stem, and name prediction still
succeeds: whenever the table parses, `compute_output_filenames` returns
normally, whatever the filesystem contents. -/
theorem claimC9 (fs : FS) (wd entry : String)
    (he : (pyEndsWith entry ".fasta" || pyEndsWith entry ".fa") = true)
    (hm : (if pyIsAbs entry then entry else pyJoin wd entry) ∉ fs.existing) :
    getEntryNames fs wd entry = [pyStem entry] ∧
      ∀ (t : Table) (m : Mode) (es : List (String × Int)),
        parseEntries t = .ok es →
        computeOutputFilenames t m fs wd = .ok (predictedNames m fs wd es) := by
  constructor
  · simp [getEntryNames, he, hm]
  · intro t m es hp
    simp [computeOutputFilenames, hp, Except.map]

/-- Witness for C9: `x.fasta` relative to workdir `.` on the empty
filesystem. -/
theorem claimC9_witness :
    (pyEndsWith "x.fasta" ".fasta" || pyEndsWith "x.fasta" ".fa") = true ∧
      (if pyIsAbs "x.fasta" then "x.fasta" else pyJoin "." "x.fasta") ∉ fsEmpty.existing ∧
      (getEntryNames fsEmpty "." "x.fasta" = [pyStem "x.fasta"] ∧
        ∀ (t : Table) (m : Mode) (es : List (String × Int)),
          parseEntries t = .ok es →
          computeOutputFilenames t m fsEmpty "." = .ok (predictedNames m fsEmpty "." es)) :=
  ⟨by decide, by decide, claimC9 fsEmpty "." "x.fasta" (by decide) (by decide)⟩

/-! ## Claim C10 — bait values outside {0, 1} -/

/-- C10: a row whose bait cell parses as an integer other than 0 or 1 is
silently excluded from both the bait partition and the prey partition, and
`compute_output_filenames` returns normally. -/
theorem claimC10 (t : Table) (fs : FS) (wd : String) (m : Mode)
    (es : List (String × Int)) (e : String) (b : Int)
    (hp : parseEntries t = .ok es) (_hmem : (e, b) ∈ es)
    (hb0 : b ≠ 0) (hb1 : b ≠ 1) :
    (e, b) ∉ es.filter (fun x => x.2 = 1) ∧
      (e, b) ∉ es.filter (fun x => x.2 = 0) ∧
      computeOutputFilenames t m fs wd = .ok (predictedNames m fs wd es) := by
  refine ⟨?_, ?_, ?_⟩
  · simp [List.mem_filter, hb1]
  · simp [List.mem_filter, hb0]
  · simp [computeOutputFilenames, hp, Except.map]

/-- Witness for C10: the table whose second row has bait value 2. -/
theorem claimC10_witness :
    parseEntries tblBait2 = .ok [("A", 1), ("B", 2)] ∧
      ("B", (2 : Int)) ∈ [(("A" : String), (1 : Int)), ("B", 2)] ∧
      (2 : Int) ≠ 0 ∧ (2 : Int) ≠ 1 ∧
      (("B", (2 : Int)) ∉ [(("A" : String), (1 : Int)), ("B", 2)].filter (fun x => x.2 = 1) ∧
        ("B", (2 : Int)) ∉ [(("A" : String), (1 : Int)), ("B", 2)].filter (fun x => x.2 = 0) ∧
        computeOutputFilenames tblBait2 .colabfold fsEmpty "." =
          .ok (predictedNames .colabfold fsEmpty "." [("A", 1), ("B", 2)])) :=
  ⟨rfl, by decide, by decide, by decide,
    claimC10 tblBait2 fsEmpty "." .colabfold _ "B" 2 rfl (by decide) (by decide) (by decide)⟩

/-! ## Claim C2 — emission order -/

/-- C2 counterexample: with a bait that expands to two names `B1`, `B2` and
two preys `P1`, `P2`, the code emits the prey-row loop OUTSIDE the bait-name
loop, so `B2_P1` precedes `B1_P2` — while the claimed order (bait row, then
bait-name expansion, then prey row, then prey-name) would put every `B1`
pair first.  `specPredictArtifactNames` follows the claim's wording; the two
orders differ on this input. -/
theorem claimC2_counterexample :
    computeOutputFilenames tblFasta .colabfold fsX "w" =
        .ok ["B1_P1.fasta", "B2_P1.fasta", "B1_P2.fasta", "B2_P2.fasta"] ∧
      specPredictArtifactNames tblFasta .colabfold fsX "w" =
        .ok ["B1_P1.fasta", "B1_P2.fasta", "B2_P1.fasta", "B2_P2.fasta"] ∧
      computeOutputFilenames tblFasta .colabfold fsX "w" ≠
        specPredictArtifactNames tblFasta .colabfold fsX "w" := by
  refine ⟨rfl, rfl, ?_⟩
  intro h
  rw [show computeOutputFilenames tblFasta .colabfold fsX "w" =
      .ok ["B1_P1.fasta", "B2_P1.fasta", "B1_P2.fasta", "B2_P2.fasta"] from rfl,
    show specPredictArtifactNames tblFasta .colabfold fsX "w" =
      .ok ["B1_P1.fasta", "B1_P2.fasta", "B2_P1.fasta", "B2_P2.fasta"] from rfl] at h
  exact absurd (Except.ok.inj h) (by decide)

/-! ## Claim C4 — table-parsing failures -/

/-- C4 counterexample: the claim says a row with bait value 2 causes a fatal
error, but `int("2")` succeeds and the row is merely filtered out later:
parsing returns the entry list and the predictor returns normally (here with
an empty name list, since no row has bait 0). -/
theorem claimC4_counterexample :
    parseEntries tblBait2 = .ok [("A", 1), ("B", 2)] ∧
      computeOutputFilenames tblBait2 .colabfold fsEmpty "." = .ok [] := by
  exact ⟨rfl, rfl⟩

/-! ## Claim C5 — non-positive batch sizes -/

/-- C5 counterexample: with batch size 0 the Boltz builder does produce a
graph — `islice(it, 0)` yields no batches, so the workflow consists of the
`process_tsv` job and a `rank_af` job with no inputs, and no error is
raised, contradicting the claimed fail-fast rejection. -/
theorem claimC5_counterexample :
    createBoltzWorkflow "acclist.tsv" tblBasic fsEmpty "." 0 =
      .ok [{ id := "process_tsv", tf := "process_tsv",
             inputs := ["acclist.tsv"], outputs := ["A_B.fasta"] },
           { id := "rank_af", tf := "rank_af",
             inputs := [], outputs := ["boltz_ranked_results.tsv"] }] := by
  rfl

/-! ## Claim C6 — empty partitions -/

/-- C6 counterexample: a table with one bait and zero preys is claimed to
abort fatally before any job is created; instead the ColabFold builder
succeeds and produces a degenerate two-job graph whose `rank_af` job has no
inputs. -/
theorem claimC6_counterexample :
    createColabfoldWorkflow "acclist.tsv" tblNoPrey fsEmpty "." =
      .ok [{ id := "process_tsv", tf := "process_tsv",
             inputs := ["acclist.tsv"], outputs := [] },
           { id := "rank_af", tf := "rank_af",
             inputs := [], outputs := ["colabfold_ranked_results.tsv"] }] := by
  rfl

/-! ## Claim C1 — graph invariants -/

/-- C1 counterexample: the claim asserts unique production of every artifact
even "when two distinct table entries expand or sanitize to the same display
name".  With preys `B?` and `B!` (both sanitizing to `B_`), the ColabFold
builder creates two `colabfold_batch` jobs that both declare the output
`A_B__toprank.json`: that artifact has two producing jobs, not exactly
one. -/
theorem claimC1_counterexample :
    (createColabfoldWorkflow "acclist.tsv" tblDup fsEmpty "w").map
        (fun g => producersCount g "A_B__toprank.json") = .ok 2 := by
  rfl

/-- C4 (amended): for rectangular tables, parsing fails exactly when the
table has at least one data row and either the (normalised) header lacks an
`entry` or `bait` column, or some row's bait cell does not parse as a Python
integer.  A bait value of 2 parses and raises nothing (see the
counterexample); a header-only table raises nothing even without the
required columns, since the row loop never runs. -/
theorem claimC4_amended (t : Table) (_hw : Rectangular t) :
    (∃ e, parseEntries t = .error e) ↔
      (t.rows ≠ [] ∧
        ("entry" ∉ normalizeHeader t.header ∨ "bait" ∉ normalizeHeader t.header ∨
          ∃ r ∈ t.rows,
            pyInt (pyStripQuotes (colValue (normalizeHeader t.header) r "bait")) = none)) := by
  unfold parseEntries
  rw [mapExcept_error_iff]
  constructor
  · rintro ⟨r, hr, he⟩
    refine ⟨List.ne_nil_of_mem hr, ?_⟩
    rcases (parseRow_error_iff _ r).mp he with h | h | h
    · exact Or.inl h
    · exact Or.inr (Or.inl h)
    · exact Or.inr (Or.inr ⟨r, hr, h⟩)
  · rintro ⟨hne, hcase⟩
    rcases List.exists_mem_of_ne_nil t.rows hne with ⟨r0, hr0⟩
    rcases hcase with h | h | ⟨r, hr, h⟩
    · exact ⟨r0, hr0, (parseRow_error_iff _ r0).mpr (Or.inl h)⟩
    · exact ⟨r0, hr0, (parseRow_error_iff _ r0).mpr (Or.inr (Or.inl h))⟩
    · exact ⟨r, hr, (parseRow_error_iff _ r).mpr (Or.inr (Or.inr h))⟩

/-- Witness for C4 (amended): the failure characterisation instantiated at
the table whose single bait cell is the non-numeric `"x"`. -/
theorem claimC4_amended_witness :
    Rectangular tblBadBait ∧
      ((∃ e, parseEntries tblBadBait = .error e) ↔
        (tblBadBait.rows ≠ [] ∧
          ("entry" ∉ normalizeHeader tblBadBait.header ∨
            "bait" ∉ normalizeHeader tblBadBait.header ∨
            ∃ r ∈ tblBadBait.rows,
              pyInt (pyStripQuotes
                (colValue (normalizeHeader tblBadBait.header) r "bait")) = none))) :=
  ⟨by decide, claimC4_amended tblBadBait (by decide)⟩

/-- C6 (amended): the builder has no empty-partition check.  When the parsed
entries contain no bait rows or no prey rows, the predicted name list is
empty and the ColabFold builder succeeds, producing a degenerate graph with
exactly the `process_tsv` job (with no declared outputs) and a `rank_af` job
with no inputs — rather than failing fatally before job creation. -/
theorem claimC6_amended (tsv : String) (t : Table) (fs : FS) (wd : String)
    (es : List (String × Int)) (refs : List String)
    (hp : parseEntries t = .ok es) (hr : findFastaReferences t = .ok refs)
    (h0 : baitsOf es = [] ∨ preysOf es = []) :
    createColabfoldWorkflow tsv t fs wd =
      .ok [{ id := "process_tsv", tf := "process_tsv",
             inputs := tsv :: refs, outputs := [] },
           { id := "rank_af", tf := "rank_af",
             inputs := [], outputs := ["colabfold_ranked_results.tsv"] }] := by
  have hfns : predictedNames .colabfold fs wd es = [] := by
    rcases h0 with h | h <;> simp [predictedNames, h]
  simp [createColabfoldWorkflow, computeOutputFilenames, hp, Except.map, hfns,
    hr, colabfoldJobs, Bind.bind, Except.bind]

/-- Witness for C6 (amended) at the one-bait, zero-prey table. -/
theorem claimC6_amended_witness :
    parseEntries tblNoPrey = .ok [("A", 1)] ∧
      findFastaReferences tblNoPrey = .ok [] ∧
      preysOf [("A", 1)] = [] ∧
      createColabfoldWorkflow "acclist.tsv" tblNoPrey fsEmpty "." =
        .ok [{ id := "process_tsv", tf := "process_tsv",
               inputs := ["acclist.tsv"], outputs := [] },
             { id := "rank_af", tf := "rank_af",
               inputs := [], outputs := ["colabfold_ranked_results.tsv"] }] :=
  ⟨rfl, rfl, rfl,
    claimC6_amended "acclist.tsv" tblNoPrey fsEmpty "." [("A", 1)] [] rfl rfl (Or.inr rfl)⟩

/-- C5 (amended): no batch-size validation exists.  With batch size 0 the
batcher yields no groups, so the Boltz builder produces a graph with zero
`boltz_predict` jobs and the AlphaFold3 builder one with zero `af3_fold`
jobs (each with a `rank_af` job that has no inputs); with a negative batch
size, `islice` raises `ValueError` during graph construction — after the
`process_tsv` (and, for AlphaFold3, `af3_msa`) jobs were already built — so
no graph is returned, but the failure is not a configuration-time check. -/
theorem claimC5_amended (tsv : String) (t : Table) (fs : FS) (wd : String)
    (es : List (String × Int)) (refs : List String)
    (hp : parseEntries t = .ok es) (hr : findFastaReferences t = .ok refs) :
    createBoltzWorkflow tsv t fs wd 0 =
        .ok [{ id := "process_tsv", tf := "process_tsv",
               inputs := tsv :: refs, outputs := predictedNames .boltz fs wd es },
             { id := "rank_af", tf := "rank_af",
               inputs := [], outputs := ["boltz_ranked_results.tsv"] }] ∧
      createAlphafold3Workflow tsv t fs wd 0 =
        .ok ({ id := "process_tsv", tf := "process_tsv",
               inputs := tsv :: refs,
               outputs := predictedNames .alphafold3 fs wd es } ::
             (predictedNames .alphafold3 fs wd es).map (fun fn =>
               { id := "msa_" ++ pySplitextRoot fn, tf := "af3_msa",
                 inputs := [fn], outputs := [msaName fn] }) ++
             [{ id := "rank_af", tf := "rank_af",
                inputs := [], outputs := ["alphafold3_ranked_results.tsv"] }]) ∧
      (∀ n : Int, n < 0 →
        createBoltzWorkflow tsv t fs wd n = .error (.valueError "islice")) ∧
      (∀ n : Int, n < 0 →
        createAlphafold3Workflow tsv t fs wd n = .error (.valueError "islice")) := by
  refine ⟨?_, ?_, ?_, ?_⟩
  · simp [createBoltzWorkflow, computeOutputFilenames, hp, Except.map, hr,
      pyBatched, chunkList, boltzJobs, mapWithIdx, Bind.bind, Except.bind]
  · simp [createAlphafold3Workflow, computeOutputFilenames, hp, Except.map, hr,
      pyBatched, chunkList, af3Jobs, mapWithIdx, Bind.bind, Except.bind]
  · intro n hn
    simp [createBoltzWorkflow, computeOutputFilenames, hp, Except.map, hr,
      pyBatched, hn, Bind.bind, Except.bind]
  · intro n hn
    simp [createAlphafold3Workflow, computeOutputFilenames, hp, Except.map, hr,
      pyBatched, hn, Bind.bind, Except.bind]

/-- Witness for C5 (amended) at the two-row table, instantiating the
negative-size conjuncts at `-1`. -/
theorem claimC5_amended_witness :
    parseEntries tblBasic = .ok [("A", 1), ("B", 0)] ∧
      findFastaReferences tblBasic = .ok [] ∧
      createBoltzWorkflow "acclist.tsv" tblBasic fsEmpty "." 0 =
        .ok [{ id := "process_tsv", tf := "process_tsv",
               inputs := ["acclist.tsv"],
               outputs := predictedNames .boltz fsEmpty "." [("A", 1), ("B", 0)] },
             { id := "rank_af", tf := "rank_af",
               inputs := [], outputs := ["boltz_ranked_results.tsv"] }] ∧
      ((-1 : Int) < 0 →
        createBoltzWorkflow "acclist.tsv" tblBasic fsEmpty "." (-1) =
          .error (.valueError "islice")) :=
  ⟨rfl, rfl,
    (claimC5_amended "acclist.tsv" tblBasic fsEmpty "." [("A", 1), ("B", 0)] [] rfl rfl).1,
    fun h => (claimC5_amended "acclist.tsv" tblBasic fsEmpty "."
      [("A", 1), ("B", 0)] [] rfl rfl).2.2.1 (-1) h⟩

/-! ## Claim C3 — batcher -/

theorem chunkCore_nil (m : Nat) : chunkCore m ([] : List α) = [] := by
  simp [chunkCore]

theorem chunkCore_cons (m : Nat) (x : α) (xs : List α) :
    chunkCore m (x :: xs) =
      (x :: xs).take (m + 1) :: chunkCore m ((x :: xs).drop (m + 1)) := by
  simp [chunkCore]

theorem chunkCore_flatten (m : Nat) (l : List α) :
    (chunkCore m l).flatten = l := by
  cases l with
  | nil => simp [chunkCore_nil]
  | cons x xs =>
    rw [chunkCore_cons, List.flatten_cons,
      chunkCore_flatten m ((x :: xs).drop (m + 1))]
    exact List.take_append_drop _ _
termination_by l.length
decreasing_by simp; omega

theorem chunkCore_length (m : Nat) (l : List α) :
    (chunkCore m l).length = (l.length + m) / (m + 1) := by
  cases l with
  | nil => simp [chunkCore_nil, Nat.div_eq_of_lt]
  | cons x xs =>
    rw [chunkCore_cons]
    simp only [List.length_cons, chunkCore_length m ((x :: xs).drop (m + 1)),
      List.length_drop]
    have hrw : xs.length + 1 + m = (xs.length + 1 - 1) + (m + 1) := by omega
    rw [hrw, Nat.add_div_right _ (Nat.succ_pos m)]
    rcases le_or_lt (m + 1) (xs.length + 1) with hle | hlt
    · have : xs.length + 1 - (m + 1) + m = xs.length + 1 - 1 := by omega
      rw [this]
    · have h1 : xs.length + 1 - (m + 1) = 0 := by omega
      rw [h1]
      have h2 : (0 + m) / (m + 1) = 0 := Nat.div_eq_of_lt (by omega)
      have h3 : (xs.length + 1 - 1) / (m + 1) = 0 := Nat.div_eq_of_lt (by omega)
      rw [h2, h3]
termination_by l.length
decreasing_by simp; omega

theorem chunkCore_ne_nil (m : Nat) (l : List α) (hl : l ≠ []) :
    chunkCore m l ≠ [] := by
  cases l with
  | nil => exact absurd rfl hl
  | cons x xs => rw [chunkCore_cons]; simp

theorem chunkCore_eq_nil_iff (m : Nat) (l : List α) :
    chunkCore m l = [] ↔ l = [] := by
  cases l with
  | nil => simp [chunkCore_nil]
  | cons x xs => rw [chunkCore_cons]; simp

theorem chunkCore_dropLast_length (m : Nat) (l : List α) :
    ∀ b ∈ (chunkCore m l).dropLast, b.length = m + 1 := by
  cases l with
  | nil => simp [chunkCore_nil]
  | cons x xs =>
    rw [chunkCore_cons]
    by_cases hd : (x :: xs).drop (m + 1) = []
    · rw [hd, chunkCore_nil]
      simp
    · rw [List.dropLast_cons_of_ne_nil (chunkCore_ne_nil m _ hd)]
      intro b hb
      rcases List.mem_cons.mp hb with rfl | hb2
      · have hlen : m + 1 < xs.length + 1 := by
          have h0 : 0 < ((x :: xs).drop (m + 1)).length := List.length_pos.mpr hd
          rw [List.length_drop] at h0
          simp only [List.length_cons] at h0
          omega
        simp only [List.length_take, List.length_cons]
        omega
      · exact chunkCore_dropLast_length m ((x :: xs).drop (m + 1)) b hb2
termination_by l.length
decreasing_by simp; omega

theorem chunkCore_getLast_length (m : Nat) (l : List α) :
    ∀ b, (chunkCore m l).getLast? = some b →
      b.length = if l.length % (m + 1) = 0 then m + 1 else l.length % (m + 1) := by
  cases l with
  | nil => simp [chunkCore_nil]
  | cons x xs =>
    rw [chunkCore_cons]
    by_cases hd : (x :: xs).drop (m + 1) = []
    · rw [hd, chunkCore_nil]
      intro b hb
      simp at hb
      subst hb
      have hle : xs.length + 1 ≤ m + 1 := by
        have := congrArg List.length hd
        simp at this
        omega
      simp only [List.length_take, List.length_cons]
      rcases Nat.lt_or_ge (xs.length + 1) (m + 1) with hlt | hge
      · rw [Nat.mod_eq_of_lt hlt]
        have h2 : xs.length + 1 ≠ 0 := by omega
        simp only [h2, if_false]
        omega
      · have heq : xs.length + 1 = m + 1 := by omega
        rw [heq, Nat.mod_self]
        simp
        omega
    · cases hc : chunkCore m ((x :: xs).drop (m + 1)) with
      | nil => exact absurd hc (chunkCore_ne_nil m _ hd)
      | cons c cs =>
        intro b hb
        rw [List.getLast?_cons_cons] at hb
        rw [← hc] at hb
        have hrec := chunkCore_getLast_length m ((x :: xs).drop (m + 1)) b hb
        have hge : m + 1 ≤ xs.length + 1 := by
          by_contra hcon
          exact hd (List.drop_eq_nil_of_le (by simp; omega))
        have hmod : ((x :: xs).drop (m + 1)).length % (m + 1) =
            (xs.length + 1) % (m + 1) := by
          rw [List.length_drop]
          simp only [List.length_cons]
          exact (Nat.mod_eq_sub_mod hge).symm
        rw [hmod] at hrec
        simpa using hrec
termination_by l.length
decreasing_by simp; omega

theorem chunkCore_nil_not_mem (m : Nat) (l : List α) :
    [] ∉ chunkCore m l := by
  cases l with
  | nil => simp [chunkCore_nil]
  | cons x xs =>
    rw [chunkCore_cons]
    intro hmem
    rcases List.mem_cons.mp hmem with heq | hmem2
    · exact absurd heq.symm (by simp)
    · exact chunkCore_nil_not_mem m ((x :: xs).drop (m + 1)) hmem2
termination_by l.length
decreasing_by simp; omega

/-- C3: for every input list and positive batch size `s`, `_batched` yields
`⌈n/s⌉` batches; every batch but the last has length exactly `s`; the last
has length `n mod s` (or `s` when `s` divides `n`); no batch is empty (an
empty input gives no batches at all); and the batches concatenate back to
the input. -/
theorem claimC3 (l : List α) (s : Nat) (hs : 0 < s) :
    pyBatched l (s : Int) = .ok (chunkList s l) ∧
      (chunkList s l).flatten = l ∧
      (chunkList s l).length = (l.length + s - 1) / s ∧
      (∀ b ∈ (chunkList s l).dropLast, b.length = s) ∧
      (∀ b, (chunkList s l).getLast? = some b →
        b.length = if l.length % s = 0 then s else l.length % s) ∧
      [] ∉ chunkList s l ∧
      (l = [] → chunkList s l = []) := by
  obtain ⟨m, rfl⟩ : ∃ m, s = m + 1 := ⟨s - 1, by omega⟩
  have hch : chunkList (m + 1) l = chunkCore m l := rfl
  refine ⟨?_, ?_, ?_, ?_, ?_, ?_, ?_⟩
  · simp [pyBatched, hch]
    omega
  · rw [hch]; exact chunkCore_flatten m l
  · rw [hch, chunkCore_length]
    have hn : l.length + (m + 1) - 1 = l.length + m := by omega
    rw [hn]
  · rw [hch]; exact chunkCore_dropLast_length m l
  · rw [hch]; exact chunkCore_getLast_length m l
  · rw [hch]; exact chunkCore_nil_not_mem m l
  · intro h; subst h; rw [hch, chunkCore_nil]

/-- Witness for C3 at batch size 2 over a three-element list. -/
theorem claimC3_witness :
    0 < 2 ∧
      (pyBatched ["a", "b", "c"] ((2 : Nat) : Int) = .ok (chunkList 2 ["a", "b", "c"]) ∧
        (chunkList 2 ["a", "b", "c"]).flatten = ["a", "b", "c"] ∧
        (chunkList 2 ["a", "b", "c"]).length = (3 + 2 - 1) / 2 ∧
        (∀ b ∈ (chunkList 2 ["a", "b", "c"]).dropLast, b.length = 2) ∧
        (∀ b, (chunkList 2 ["a", "b", "c"]).getLast? = some b →
          b.length = if 3 % 2 = 0 then 2 else 3 % 2) ∧
        [] ∉ chunkList 2 ["a", "b", "c"] ∧
        (["a", "b", "c"] = ([] : List String) → chunkList 2 ["a", "b", "c"] = [])) :=
  ⟨by decide, by
    have h := claimC3 ["a", "b", "c"] 2 (by decide)
    simpa using h⟩

/-! ## Claim C2 (amended) and Claim C7 — emission order and counting -/

theorem flatMap_singleton_map (l : List α) (f : α → β) :
    (l.flatMap fun a => [f a]) = l.map f := by
  induction l with
  | nil => rfl
  | cons x xs ih => simp [ih]

/-- C2 (amended): the predictor's order is bait row (outermost), then prey
row, then bait-name expansion, then prey-name expansion — equivalently, the
output is the bait×prey row product in lexicographic row order, each pair
contributing its (bait-name × prey-name) expansion product in bait-name-major
order. -/
theorem claimC2_amended (t : Table) (m : Mode) (fs : FS) (wd : String)
    (es : List (String × Int)) (hp : parseEntries t = .ok es) :
    computeOutputFilenames t m fs wd =
      .ok ((List.product (baitsOf es) (preysOf es)).flatMap (fun bp =>
        (List.product (getEntryNames fs wd bp.1) (getEntryNames fs wd bp.2)).map
          (fun q => fmtName (extOf m) q.1 q.2))) := by
  simp only [computeOutputFilenames, hp, Except.map]
  congr 1
  simp only [predictedNames, List.product, List.flatMap_assoc]
  refine List.flatMap_congr (fun bait _ => ?_)
  rw [List.flatMap_map]
  refine List.flatMap_congr (fun prey _ => ?_)
  rw [List.map_flatMap]
  refine List.flatMap_congr (fun bn _ => ?_)
  rw [List.map_map]
  rfl

/-- Witness for C2 (amended) at the FASTA-bait fixture. -/
theorem claimC2_amended_witness :
    parseEntries tblFasta = .ok [("x.fasta", 1), ("P1", 0), ("P2", 0)] ∧
      computeOutputFilenames tblFasta .colabfold fsX "w" =
        .ok ((List.product (baitsOf [("x.fasta", 1), ("P1", 0), ("P2", 0)])
            (preysOf [("x.fasta", 1), ("P1", 0), ("P2", 0)])).flatMap (fun bp =>
          (List.product (getEntryNames fsX "w" bp.1) (getEntryNames fsX "w" bp.2)).map
            (fun q => fmtName (extOf .colabfold) q.1 q.2))) :=
  ⟨rfl, claimC2_amended tblFasta .colabfold fsX "w" [("x.fasta", 1), ("P1", 0), ("P2", 0)] rfl⟩

/-- C7: when every entry expands to a single display name, the predictor
emits exactly one name per (bait row, prey row) pair, in bait-major,
prey-minor table order, and its output length is `b × p`. -/
theorem claimC7 (t : Table) (m : Mode) (fs : FS) (wd : String)
    (es : List (String × Int)) (hp : parseEntries t = .ok es)
    (hsing : ∀ e ∈ es, ∃ nm, getEntryNames fs wd e.1 = [nm]) :
    computeOutputFilenames t m fs wd =
      .ok ((baitsOf es).flatMap (fun bait =>
        (preysOf es).map (fun prey =>
          fmtName (extOf m) ((getEntryNames fs wd bait).headI)
            ((getEntryNames fs wd prey).headI)))) ∧
      (predictedNames m fs wd es).length =
        (baitsOf es).length * (preysOf es).length := by
  have hsingB : ∀ bait ∈ baitsOf es, getEntryNames fs wd bait =
      [(getEntryNames fs wd bait).headI] := by
    intro bait hb
    simp only [baitsOf, List.mem_map, List.mem_filter] at hb
    rcases hb with ⟨e, ⟨hmem, _⟩, rfl⟩
    rcases hsing e hmem with ⟨nm, hnm⟩
    rw [hnm]
    rfl
  have hsingP : ∀ prey ∈ preysOf es, getEntryNames fs wd prey =
      [(getEntryNames fs wd prey).headI] := by
    intro prey hpm
    simp only [preysOf, List.mem_map, List.mem_filter] at hpm
    rcases hpm with ⟨e, ⟨hmem, _⟩, rfl⟩
    rcases hsing e hmem with ⟨nm, hnm⟩
    rw [hnm]
    rfl
  have hpred : predictedNames m fs wd es =
      (baitsOf es).flatMap (fun bait =>
        (preysOf es).map (fun prey =>
          fmtName (extOf m) ((getEntryNames fs wd bait).headI)
            ((getEntryNames fs wd prey).headI))) := by
    simp only [predictedNames]
    refine List.flatMap_congr (fun bait hb => ?_)
    rw [← flatMap_singleton_map (preysOf es)]
    refine List.flatMap_congr (fun prey hpm => ?_)
    rw [hsingB bait hb, hsingP prey hpm]
    rfl
  constructor
  · rw [computeOutputFilenames, hp, Except.map, hpred]
  · rw [hpred, List.length_flatMap]
    simp only [Function.comp_def, List.length_map]
    rw [List.map_const', List.sum_replicate, smul_eq_mul]

/-- Witness for C7 at the one-bait, one-prey table (all singleton
expansions). -/
theorem claimC7_witness :
    parseEntries tblBasic = .ok [("A", 1), ("B", 0)] ∧
      (∀ e ∈ [(("A" : String), (1 : Int)), ("B", 0)],
        ∃ nm, getEntryNames fsEmpty "." e.1 = [nm]) ∧
      (computeOutputFilenames tblBasic .colabfold fsEmpty "." =
        .ok ((baitsOf [("A", 1), ("B", 0)]).flatMap (fun bait =>
          (preysOf [("A", 1), ("B", 0)]).map (fun prey =>
            fmtName (extOf .colabfold) ((getEntryNames fsEmpty "." bait).headI)
              ((getEntryNames fsEmpty "." prey).headI)))) ∧
        (predictedNames .colabfold fsEmpty "." [("A", 1), ("B", 0)]).length =
          (baitsOf [("A", 1), ("B", 0)]).length *
            (preysOf [("A", 1), ("B", 0)]).length) := by
  have hsing : ∀ e ∈ [(("A" : String), (1 : Int)), ("B", 0)],
      ∃ nm, getEntryNames fsEmpty "." e.1 = [nm] := by
    intro e he
    rcases List.mem_cons.mp he with rfl | he2
    · exact ⟨"A", rfl⟩
    rcases List.mem_cons.mp he2 with rfl | he3
    · exact ⟨"B", rfl⟩
    · cases he3
  exact ⟨rfl, hsing,
    claimC7 tblBasic .colabfold fsEmpty "." [("A", 1), ("B", 0)] rfl hsing⟩

/-! ## Claim C1 (amended) — acyclicity and unique production -/

/-- If some measure strictly increases along every shared-artifact pair of
jobs, the implied-edge relation has no cycles. -/
theorem acyclic_of_mono (g : List Job) (F : Job → Nat)
    (h : ∀ u v : Job, u ∈ g → v ∈ g →
      (∃ a, a ∈ u.outputs ∧ a ∈ v.inputs) → F u < F v) :
    AcyclicGraph g := by
  have h2 : ∀ i j, Relation.TransGen (impliedEdge g) i j →
      ∃ (hi : i < g.length) (hj : j < g.length),
        F (g.get ⟨i, hi⟩) < F (g.get ⟨j, hj⟩) := by
    intro i j hij
    induction hij with
    | single hstep =>
      rcases hstep with ⟨hi, hj, a, ha, hb⟩
      exact ⟨hi, hj, h _ _ (List.get_mem g _ _) (List.get_mem g _ _) ⟨a, ha, hb⟩⟩
    | tail _ hstep ih =>
      rcases ih with ⟨hi, hk, hltik⟩
      rcases hstep with ⟨hk2, hj, a, ha, hb⟩
      exact ⟨hi, hj, lt_trans hltik
        (h _ _ (List.get_mem g _ _) (List.get_mem g _ _) ⟨a, ha, hb⟩)⟩
  intro i hcyc
  rcases h2 i i hcyc with ⟨hi, hj, hlt⟩
  exact lt_irrefl _ hlt

theorem countP_ext (l : List α) (p q : α → Bool) (h : ∀ a ∈ l, p a = q a) :
    l.countP p = l.countP q := by
  induction l with
  | nil => rfl
  | cons x xs ih =>
    rw [List.countP_cons, List.countP_cons, h x (by simp),
      ih (fun a ha => h a (by simp [ha]))]

theorem countP_map_nodup_eq_one (f : β → String) (l : List β)
    (hnd : (l.map f).Nodup) (a : String) (ha : a ∈ l.map f) :
    l.countP (fun x => decide (a = f x)) = 1 := by
  have h1 : l.countP (fun x => decide (a = f x)) =
      (l.map f).countP (fun y => decide (a = y)) := by
    rw [List.countP_map]
    rfl
  have h2 : (l.map f).countP (fun y => decide (a = y)) = (l.map f).count a := by
    rw [List.count]
    apply countP_ext
    intro y _
    by_cases h : a = y
    · subst h; simp
    · simp only [h, decide_eq_false_iff_not, decide_eq_true_eq]
      simp [beq_iff_eq]
      exact fun hh => h hh.symm
  rw [h1, h2]
  exact List.count_eq_one_of_mem hnd ha

/-- The count `producersCount` over the ColabFold job list, split by
stage. -/
theorem producersCount_colabfold (tsv : String) (refs fns : List String) (a : String) :
    producersCount (colabfoldJobs tsv refs fns) a =
      ((if a ∈ fns then 1 else 0) +
        fns.countP (fun fn => decide (a = toprankName fn))) +
        (if a = "colabfold_ranked_results.tsv" then 1 else 0) := by
  simp only [producersCount, colabfoldJobs, List.countP_cons, List.countP_append,
    List.countP_map, List.countP_nil]
  have hcf : fns.countP ((fun j => decide (a ∈ j.outputs)) ∘ (fun fn =>
      ({ id := "cf_" ++ pySplitextRoot fn, tf := "colabfold_batch",
         inputs := [fn], outputs := [toprankName fn] } : Job))) =
      fns.countP (fun fn => decide (a = toprankName fn)) := by
    apply countP_ext
    intro fn _
    simp [List.mem_singleton]
  rw [hcf]
  by_cases h1 : a ∈ fns <;> by_cases h2 : a = "colabfold_ranked_results.tsv" <;>
    simp [h1, h2] <;> omega

theorem pyBatched_flatten_sublist {l : List α} {n : Int} {bs : List (List α)}
    (h : pyBatched l n = .ok bs) : bs.flatten.Sublist l := by
  unfold pyBatched at h
  by_cases hn : n < 0
  · rw [if_pos hn] at h; cases h
  · rw [if_neg hn] at h
    have hbs : bs = chunkList n.toNat l := (Except.ok.inj h).symm
    subst hbs
    cases hnt : n.toNat with
    | zero => simp [chunkList]
    | succ m =>
      have hc : chunkList (m + 1) l = chunkCore m l := rfl
      rw [hc, chunkCore_flatten]

theorem mem_of_mem_pyBatched {l : List α} {n : Int} {bs : List (List α)}
    {b : List α} {x : α} (h : pyBatched l n = .ok bs) (hb : b ∈ bs) (hx : x ∈ b) :
    x ∈ l :=
  (pyBatched_flatten_sublist h).subset (List.mem_flatten.mpr ⟨b, hb, hx⟩)

theorem flatMap_map_flatten (batches : List (List String)) (f : String → String) :
    batches.flatMap (fun b => b.map f) = batches.flatten.map f := by
  induction batches with
  | nil => rfl
  | cons b bs ih => simp [ih]

theorem countP_mapWithIdx (f : Nat → α → Job) (p : Job → Bool) (q : α → Bool)
    (h : ∀ i x, p (f i x) = q x) :
    ∀ (i : Nat) (l : List α), (mapWithIdx f i l).countP p = l.countP q := by
  intro i l
  induction l generalizing i with
  | nil => rfl
  | cons x xs ih =>
    simp only [mapWithIdx, List.countP_cons, h, ih]

theorem exists_of_mem_mapWithIdx {f : Nat → α → β} {u : β} :
    ∀ {l : List α} {i : Nat}, u ∈ mapWithIdx f i l → ∃ j x, x ∈ l ∧ u = f j x := by
  intro l
  induction l with
  | nil => intro i h; cases h
  | cons x xs ih =>
    intro i h
    rcases List.mem_cons.mp h with rfl | h2
    · exact ⟨i, x, List.mem_cons_self x xs, rfl⟩
    · rcases ih h2 with ⟨j, y, hy, rfl⟩
      exact ⟨j, y, List.mem_cons_of_mem x hy, rfl⟩

theorem countP_flatMap_nodup (h : α → List String) (ll : List α) (a : String)
    (hnd : (ll.flatMap h).Nodup) (ha : a ∈ ll.flatMap h) :
    ll.countP (fun b => decide (a ∈ h b)) = 1 := by
  induction ll with
  | nil => simp at ha
  | cons b bs ih =>
    rw [List.flatMap_cons] at hnd ha
    rw [List.countP_cons]
    rcases List.nodup_append.mp hnd with ⟨_, hnd2, hdisj⟩
    rcases List.mem_append.mp ha with hab | harest
    · have h0 : bs.countP (fun b2 => decide (a ∈ h b2)) = 0 := by
        rw [List.countP_eq_zero]
        intro b2 hb2
        simp only [decide_eq_true_eq]
        intro hmem
        exact (hdisj hab) (List.mem_flatMap.mpr ⟨b2, hb2, hmem⟩)
      rw [h0, if_pos (by simpa using hab)]
    · have h1 : ¬ a ∈ h b := fun hab => (hdisj hab) harest
      rw [ih hnd2 harest, if_neg (by simpa using h1)]

/-- The count `producersCount` over the Boltz job list, split by stage. -/
theorem producersCount_boltz (tsv : String) (refs fns : List String)
    (batches : List (List String)) (a : String) :
    producersCount (boltzJobs tsv refs fns batches) a =
      ((if a ∈ fns then 1 else 0) +
        batches.countP (fun b => decide (a ∈ b.map boltzConf))) +
        (if a = "boltz_ranked_results.tsv" then 1 else 0) := by
  have hcp := countP_mapWithIdx
    (fun i b => ({ id := "predict_b" ++ toString i,
                   tf := "boltz_predict",
                   inputs := b,
                   outputs := b.map boltzConf } : Job))
    (fun j => decide (a ∈ j.outputs))
    (fun b => decide (a ∈ b.map boltzConf))
    (fun _ _ => rfl) 0 batches
  simp only [producersCount, boltzJobs, List.countP_cons, List.countP_append,
    List.countP_nil, hcp]
  by_cases h1 : a ∈ fns <;> by_cases h2 : a = "boltz_ranked_results.tsv" <;>
    simp [h1, h2] <;> omega

/-- The count `producersCount` over the AlphaFold3 job list, split by
stage. -/
theorem producersCount_af3 (tsv : String) (refs fns : List String)
    (batches : List (List String)) (a : String) :
    producersCount (af3Jobs tsv refs fns batches) a =
      (((if a ∈ fns then 1 else 0) +
        fns.countP (fun fn => decide (a = msaName fn))) +
        batches.countP (fun b => decide (a ∈ b.map af3Conf))) +
        (if a = "alphafold3_ranked_results.tsv" then 1 else 0) := by
  have hcp := countP_mapWithIdx
    (fun i b => ({ id := "fold_b" ++ toString i,
                   tf := "af3_fold",
                   inputs := b,
                   outputs := b.map af3Conf } : Job))
    (fun j => decide (a ∈ j.outputs))
    (fun b => decide (a ∈ b.map af3Conf))
    (fun _ _ => rfl) 0 batches
  have hmsa : fns.countP ((fun j => decide (a ∈ j.outputs)) ∘ (fun fn =>
      ({ id := "msa_" ++ pySplitextRoot fn, tf := "af3_msa",
         inputs := [fn], outputs := [msaName fn] } : Job))) =
      fns.countP (fun fn => decide (a = msaName fn)) := by
    apply countP_ext
    intro fn _
    simp [List.mem_singleton]
  simp only [producersCount, af3Jobs, List.countP_cons, List.countP_append,
    List.countP_nil, List.countP_map, hcp, hmsa]
  by_cases h1 : a ∈ fns <;> by_cases h2 : a = "alphafold3_ranked_results.tsv" <;>
    simp [h1, h2] <;> omega

/-- Acyclicity and unique production for a ColabFold job list whose name
families do not collide. -/
theorem colabfoldInvariants (tsv : String) (refs fns : List String)
    (hnd : (fns.map toprankName).Nodup)
    (hfr : ∀ a ∈ fns, a ∉ tsv :: refs)
    (htr : ∀ a ∈ fns.map toprankName, a ∉ tsv :: refs ∧ a ∉ fns)
    (hrk : "colabfold_ranked_results.tsv" ∉ tsv :: refs ∧
      "colabfold_ranked_results.tsv" ∉ fns ∧
      "colabfold_ranked_results.tsv" ∉ fns.map toprankName) :
    AcyclicGraph (colabfoldJobs tsv refs fns) ∧
      (∀ a : String, (∃ j ∈ colabfoldJobs tsv refs fns, a ∈ j.outputs) →
        producersCount (colabfoldJobs tsv refs fns) a = 1) := by
  constructor
  · apply acyclic_of_mono _ (fun j =>
      if j.tf = "process_tsv" then 0 else if j.tf = "colabfold_batch" then 1 else 2)
    intro u v hu hv hshare
    rcases hshare with ⟨a, hao, hai⟩
    simp only [colabfoldJobs, List.mem_cons, List.mem_append, List.mem_map,
      List.mem_singleton, List.mem_nil_iff, or_false, or_assoc] at hu hv
    rcases hu with rfl | ⟨fn, hfn, rfl⟩ | rfl
    · rcases hv with rfl | ⟨fn2, hfn2, rfl⟩ | rfl
      · exact absurd hai (hfr a hao)
      · simp
      · simp
    · rcases hv with rfl | ⟨fn2, hfn2, rfl⟩ | rfl
      · have ha2 : a = toprankName fn := List.mem_singleton.mp hao
        exact absurd hai
          ((htr a (ha2 ▸ List.mem_map_of_mem toprankName hfn)).1)
      · have ha2 : a = toprankName fn := List.mem_singleton.mp hao
        have ha3 : a ∈ fns := by
          rw [List.mem_singleton.mp hai]
          exact hfn2
        exact absurd ha3 ((htr a (ha2 ▸ List.mem_map_of_mem toprankName hfn)).2)
      · simp
    · rcases hv with rfl | ⟨fn2, hfn2, rfl⟩ | rfl
      · have ha2 : a = "colabfold_ranked_results.tsv" := List.mem_singleton.mp hao
        exact absurd hai (ha2 ▸ hrk.1)
      · have ha2 : a = "colabfold_ranked_results.tsv" := List.mem_singleton.mp hao
        have ha3 : a ∈ fns := by
          rw [List.mem_singleton.mp hai]
          exact hfn2
        exact absurd ha3 (ha2 ▸ hrk.2.1)
      · have ha2 : a = "colabfold_ranked_results.tsv" := List.mem_singleton.mp hao
        exact absurd hai (ha2 ▸ hrk.2.2)
  · rintro a ⟨j, hj, hja⟩
    rw [producersCount_colabfold]
    simp only [colabfoldJobs, List.mem_cons, List.mem_append, List.mem_map,
      List.mem_singleton, List.mem_nil_iff, or_false, or_assoc] at hj
    rcases hj with rfl | ⟨fn, hfn, rfl⟩ | rfl
    · have ha : a ∈ fns := hja
      have hc : fns.countP (fun fn => decide (a = toprankName fn)) = 0 := by
        rw [List.countP_eq_zero]
        intro fn hfn
        simp only [decide_eq_true_eq]
        intro heq
        exact (htr a (heq ▸ List.mem_map_of_mem toprankName hfn)).2 ha
      have hr0 : ¬ a = "colabfold_ranked_results.tsv" :=
        fun h => hrk.2.1 (h ▸ ha)
      rw [if_pos ha, hc, if_neg hr0]
    · have ha2 : a = toprankName fn := List.mem_singleton.mp hja
      have hamem : a ∈ fns.map toprankName :=
        ha2 ▸ List.mem_map_of_mem toprankName hfn
      have h1 : a ∉ fns := (htr a hamem).2
      have hr0 : ¬ a = "colabfold_ranked_results.tsv" :=
        fun h => hrk.2.2 (h ▸ hamem)
      rw [if_neg h1, countP_map_nodup_eq_one toprankName fns hnd a hamem, if_neg hr0]
    · have ha2 : a = "colabfold_ranked_results.tsv" := List.mem_singleton.mp hja
      have h1 : a ∉ fns := fun h => hrk.2.1 (ha2 ▸ h)
      have hc : fns.countP (fun fn => decide (a = toprankName fn)) = 0 := by
        rw [List.countP_eq_zero]
        intro fn hfn
        simp only [decide_eq_true_eq]
        intro heq
        exact hrk.2.2 (ha2 ▸ heq ▸ List.mem_map_of_mem toprankName hfn)
      rw [if_neg h1, hc, if_pos ha2]

/-- Acyclicity and unique production for a Boltz job list whose batches draw
from the predicted names and whose name families do not collide. -/
theorem boltzInvariants (tsv : String) (refs fns : List String)
    (batches : List (List String))
    (hmem : ∀ b ∈ batches, ∀ x ∈ b, x ∈ fns)
    (hndC : (batches.flatMap (fun b => b.map boltzConf)).Nodup)
    (hfr : ∀ a ∈ fns, a ∉ tsv :: refs)
    (htr : ∀ a ∈ fns.map boltzConf, a ∉ tsv :: refs ∧ a ∉ fns)
    (hrk : "boltz_ranked_results.tsv" ∉ tsv :: refs ∧
      "boltz_ranked_results.tsv" ∉ fns ∧
      "boltz_ranked_results.tsv" ∉ fns.map boltzConf) :
    AcyclicGraph (boltzJobs tsv refs fns batches) ∧
      (∀ a : String, (∃ j ∈ boltzJobs tsv refs fns batches, a ∈ j.outputs) →
        producersCount (boltzJobs tsv refs fns batches) a = 1) := by
  have hconfFam : ∀ b ∈ batches, ∀ a ∈ b.map boltzConf, a ∈ fns.map boltzConf := by
    intro b hb a ha
    rcases List.mem_map.mp ha with ⟨x, hx, rfl⟩
    exact List.mem_map_of_mem boltzConf (hmem b hb x hx)
  constructor
  · apply acyclic_of_mono _ (fun j =>
      if j.tf = "process_tsv" then 0 else if j.tf = "boltz_predict" then 1 else 2)
    intro u v hu hv hshare
    rcases hshare with ⟨a, hao, hai⟩
    simp only [boltzJobs, List.mem_cons, List.mem_append, List.mem_singleton,
      List.mem_nil_iff, or_false, or_assoc] at hu hv
    rcases hu with rfl | hu2 | rfl
    · rcases hv with rfl | hv2 | rfl
      · exact absurd hai (hfr a hao)
      · rcases exists_of_mem_mapWithIdx hv2 with ⟨j2, b2, hb2, rfl⟩
        simp
      · simp
    · rcases exists_of_mem_mapWithIdx hu2 with ⟨j1, b1, hb1, rfl⟩
      have haC : a ∈ fns.map boltzConf := hconfFam b1 hb1 a hao
      rcases hv with rfl | hv2 | rfl
      · exact absurd hai (htr a haC).1
      · rcases exists_of_mem_mapWithIdx hv2 with ⟨j2, b2, hb2, rfl⟩
        exact absurd (hmem b2 hb2 a hai) (htr a haC).2
      · simp
    · have ha2 : a = "boltz_ranked_results.tsv" := List.mem_singleton.mp hao
      rcases hv with rfl | hv2 | rfl
      · exact absurd hai (ha2 ▸ hrk.1)
      · rcases exists_of_mem_mapWithIdx hv2 with ⟨j2, b2, hb2, rfl⟩
        exact absurd (hmem b2 hb2 a hai) (ha2 ▸ hrk.2.1)
      · rcases List.mem_flatMap.mp hai with ⟨b2, hb2, hab2⟩
        exact absurd (hconfFam b2 hb2 a hab2) (ha2 ▸ hrk.2.2)
  · rintro a ⟨j, hj, hja⟩
    rw [producersCount_boltz]
    simp only [boltzJobs, List.mem_cons, List.mem_append, List.mem_singleton,
      List.mem_nil_iff, or_false, or_assoc] at hj
    rcases hj with rfl | hj2 | rfl
    · have ha : a ∈ fns := hja
      have hc : batches.countP (fun b => decide (a ∈ b.map boltzConf)) = 0 := by
        rw [List.countP_eq_zero]
        intro b hb
        simp only [decide_eq_true_eq]
        intro hmemb
        exact (htr a (hconfFam b hb a hmemb)).2 ha
      have hr0 : ¬ a = "boltz_ranked_results.tsv" := fun h => hrk.2.1 (h ▸ ha)
      rw [if_pos ha, hc, if_neg hr0]
    · rcases exists_of_mem_mapWithIdx hj2 with ⟨j1, b1, hb1, rfl⟩
      have haB : a ∈ b1.map boltzConf := hja
      have haC : a ∈ fns.map boltzConf := hconfFam b1 hb1 a haB
      have haF : a ∈ batches.flatMap (fun b => b.map boltzConf) :=
        List.mem_flatMap.mpr ⟨b1, hb1, haB⟩
      have h1 : a ∉ fns := (htr a haC).2
      have hr0 : ¬ a = "boltz_ranked_results.tsv" := fun h => hrk.2.2 (h ▸ haC)
      have hcone := countP_flatMap_nodup (fun b => b.map boltzConf) batches a hndC haF
      rw [if_neg h1, hcone, if_neg hr0]
    · have ha2 : a = "boltz_ranked_results.tsv" := List.mem_singleton.mp hja
      have h1 : a ∉ fns := fun h => hrk.2.1 (ha2 ▸ h)
      have hc : batches.countP (fun b => decide (a ∈ b.map boltzConf)) = 0 := by
        rw [List.countP_eq_zero]
        intro b hb
        simp only [decide_eq_true_eq]
        intro hmemb
        exact hrk.2.2 (ha2 ▸ hconfFam b hb a hmemb)
      rw [if_neg h1, hc, if_pos ha2]

/-- Acyclicity and unique production for an AlphaFold3 job list whose
batches draw from the per-pair MSA names and whose name families do not
collide. -/
theorem af3Invariants (tsv : String) (refs fns : List String)
    (batches : List (List String))
    (hmem : ∀ b ∈ batches, ∀ x ∈ b, x ∈ fns.map msaName)
    (hndM : (fns.map msaName).Nodup)
    (hndC : (batches.flatMap (fun b => b.map af3Conf)).Nodup)
    (hfr : ∀ a ∈ fns, a ∉ tsv :: refs)
    (hms : ∀ a ∈ fns.map msaName, a ∉ tsv :: refs ∧ a ∉ fns)
    (hcf : ∀ a ∈ (fns.map msaName).map af3Conf,
      a ∉ tsv :: refs ∧ a ∉ fns ∧ a ∉ fns.map msaName)
    (hrk : "alphafold3_ranked_results.tsv" ∉ tsv :: refs ∧
      "alphafold3_ranked_results.tsv" ∉ fns ∧
      "alphafold3_ranked_results.tsv" ∉ fns.map msaName ∧
      "alphafold3_ranked_results.tsv" ∉ (fns.map msaName).map af3Conf) :
    AcyclicGraph (af3Jobs tsv refs fns batches) ∧
      (∀ a : String, (∃ j ∈ af3Jobs tsv refs fns batches, a ∈ j.outputs) →
        producersCount (af3Jobs tsv refs fns batches) a = 1) := by
  have hconfFam : ∀ b ∈ batches, ∀ a ∈ b.map af3Conf,
      a ∈ (fns.map msaName).map af3Conf := by
    intro b hb a ha
    rcases List.mem_map.mp ha with ⟨x, hx, rfl⟩
    exact List.mem_map_of_mem af3Conf (hmem b hb x hx)
  constructor
  · apply acyclic_of_mono _ (fun j =>
      if j.tf = "process_tsv" then 0 else if j.tf = "af3_msa" then 1
      else if j.tf = "af3_fold" then 2 else 3)
    intro u v hu hv hshare
    rcases hshare with ⟨a, hao, hai⟩
    simp only [af3Jobs, List.mem_cons, List.mem_append, List.mem_map,
      List.mem_singleton, List.mem_nil_iff, or_false, or_assoc] at hu hv
    rcases hu with rfl | ⟨fn, hfn, rfl⟩ | hu2 | rfl
    · rcases hv with rfl | ⟨fn2, hfn2, rfl⟩ | hv2 | rfl
      · exact absurd hai (hfr a hao)
      · simp
      · rcases exists_of_mem_mapWithIdx hv2 with ⟨j2, b2, hb2, rfl⟩
        simp
      · simp
    · have ha2 : a = msaName fn := List.mem_singleton.mp hao
      have haM : a ∈ fns.map msaName := ha2 ▸ List.mem_map_of_mem msaName hfn
      rcases hv with rfl | ⟨fn2, hfn2, rfl⟩ | hv2 | rfl
      · exact absurd hai (hms a haM).1
      · have ha3 : a ∈ fns := by
          rw [List.mem_singleton.mp hai]
          exact hfn2
        exact absurd ha3 (hms a haM).2
      · rcases exists_of_mem_mapWithIdx hv2 with ⟨j2, b2, hb2, rfl⟩
        simp
      · simp
    · rcases exists_of_mem_mapWithIdx hu2 with ⟨j1, b1, hb1, rfl⟩
      have haC : a ∈ (fns.map msaName).map af3Conf := hconfFam b1 hb1 a hao
      rcases hv with rfl | ⟨fn2, hfn2, rfl⟩ | hv2 | rfl
      · exact absurd hai (hcf a haC).1
      · have ha3 : a ∈ fns := by
          rw [List.mem_singleton.mp hai]
          exact hfn2
        exact absurd ha3 (hcf a haC).2.1
      · rcases exists_of_mem_mapWithIdx hv2 with ⟨j2, b2, hb2, rfl⟩
        exact absurd (hmem b2 hb2 a hai) (hcf a haC).2.2
      · simp
    · have ha2 : a = "alphafold3_ranked_results.tsv" := List.mem_singleton.mp hao
      rcases hv with rfl | ⟨fn2, hfn2, rfl⟩ | hv2 | rfl
      · exact absurd hai (ha2 ▸ hrk.1)
      · have ha3 : a ∈ fns := by
          rw [List.mem_singleton.mp hai]
          exact hfn2
        exact absurd ha3 (ha2 ▸ hrk.2.1)
      · rcases exists_of_mem_mapWithIdx hv2 with ⟨j2, b2, hb2, rfl⟩
        exact absurd (hmem b2 hb2 a hai) (ha2 ▸ hrk.2.2.1)
      · rcases List.mem_flatMap.mp hai with ⟨b2, hb2, hab2⟩
        exact absurd (hconfFam b2 hb2 a hab2) (ha2 ▸ hrk.2.2.2)
  · rintro a ⟨j, hj, hja⟩
    rw [producersCount_af3]
    simp only [af3Jobs, List.mem_cons, List.mem_append, List.mem_map,
      List.mem_singleton, List.mem_nil_iff, or_false, or_assoc] at hj
    have hcnt0msa : a ∉ fns.map msaName →
        fns.countP (fun fn => decide (a = msaName fn)) = 0 := by
      intro hnot
      rw [List.countP_eq_zero]
      intro fn hfn
      simp only [decide_eq_true_eq]
      intro heq
      exact hnot (heq ▸ List.mem_map_of_mem msaName hfn)
    have hcnt0fold : a ∉ (fns.map msaName).map af3Conf →
        batches.countP (fun b => decide (a ∈ b.map af3Conf)) = 0 := by
      intro hnot
      rw [List.countP_eq_zero]
      intro b hb
      simp only [decide_eq_true_eq]
      intro hmemb
      exact hnot (hconfFam b hb a hmemb)
    rcases hj with rfl | ⟨fn, hfn, rfl⟩ | hj2 | rfl
    · have ha : a ∈ fns := hja
      have hM : a ∉ fns.map msaName := fun h => (hms a h).2 ha
      have hC : a ∉ (fns.map msaName).map af3Conf := fun h => (hcf a h).2.1 ha
      have hr0 : ¬ a = "alphafold3_ranked_results.tsv" := fun h => hrk.2.1 (h ▸ ha)
      rw [if_pos ha, hcnt0msa hM, hcnt0fold hC, if_neg hr0]
    · have ha2 : a = msaName fn := List.mem_singleton.mp hja
      have haM : a ∈ fns.map msaName := ha2 ▸ List.mem_map_of_mem msaName hfn
      have h1 : a ∉ fns := (hms a haM).2
      have hC : a ∉ (fns.map msaName).map af3Conf := fun h => (hcf a h).2.2 haM
      have hr0 : ¬ a = "alphafold3_ranked_results.tsv" :=
        fun h => hrk.2.2.1 (h ▸ haM)
      rw [if_neg h1, countP_map_nodup_eq_one msaName fns hndM a haM,
        hcnt0fold hC, if_neg hr0]
    · rcases exists_of_mem_mapWithIdx hj2 with ⟨j1, b1, hb1, rfl⟩
      have haB : a ∈ b1.map af3Conf := hja
      have haC : a ∈ (fns.map msaName).map af3Conf := hconfFam b1 hb1 a haB
      have haF : a ∈ batches.flatMap (fun b => b.map af3Conf) :=
        List.mem_flatMap.mpr ⟨b1, hb1, haB⟩
      have h1 : a ∉ fns := (hcf a haC).2.1
      have hM : a ∉ fns.map msaName := (hcf a haC).2.2
      have hr0 : ¬ a = "alphafold3_ranked_results.tsv" :=
        fun h => hrk.2.2.2 (h ▸ haC)
      have hcone := countP_flatMap_nodup (fun b => b.map af3Conf) batches a hndC haF
      rw [if_neg h1, hcnt0msa hM, hcone, if_neg hr0]
    · have ha2 : a = "alphafold3_ranked_results.tsv" := List.mem_singleton.mp hja
      have h1 : a ∉ fns := fun h => hrk.2.1 (ha2 ▸ h)
      have hM : a ∉ fns.map msaName := fun h => hrk.2.2.1 (ha2 ▸ h)
      have hC : a ∉ (fns.map msaName).map af3Conf := fun h => hrk.2.2.2 (ha2 ▸ h)
      rw [if_neg h1, hcnt0msa hM, hcnt0fold hC, if_pos ha2]

/-- C1 (amended): for every mode, a graph the builder produces whose
artifact-name families do not collide — derived per-item/per-batch output
names pairwise distinct, every later-stage name family disjoint from the
table/FASTA inputs and from all earlier families, and the ranked-results
name fresh — has an acyclic implied-edge relation, and every artifact output
by some job has exactly one producing job.  The three conjuncts cover
ColabFold, Boltz, and AlphaFold3.  Without the distinctness hypotheses the
invariant fails: see the counterexample, where two entries sanitize to the
same display name and the derived ranking artifact gains two producers, so
the hypotheses are forced by the collision and the original claim's
"including when two distinct table entries expand or sanitize to the same
display name" is exactly what is dropped. -/
theorem claimC1_amended :
    (∀ (tsv : String) (t : Table) (fs : FS) (wd : String) (fns refs : List String),
      computeOutputFilenames t .colabfold fs wd = .ok fns →
      findFastaReferences t = .ok refs →
      (fns.map toprankName).Nodup →
      (∀ a ∈ fns, a ∉ tsv :: refs) →
      (∀ a ∈ fns.map toprankName, a ∉ tsv :: refs ∧ a ∉ fns) →
      ("colabfold_ranked_results.tsv" ∉ tsv :: refs ∧
        "colabfold_ranked_results.tsv" ∉ fns ∧
        "colabfold_ranked_results.tsv" ∉ fns.map toprankName) →
      createColabfoldWorkflow tsv t fs wd = .ok (colabfoldJobs tsv refs fns) ∧
        AcyclicGraph (colabfoldJobs tsv refs fns) ∧
        (∀ a : String, (∃ j ∈ colabfoldJobs tsv refs fns, a ∈ j.outputs) →
          producersCount (colabfoldJobs tsv refs fns) a = 1)) ∧
    (∀ (tsv : String) (t : Table) (fs : FS) (wd : String) (s : Int)
        (fns refs : List String) (batches : List (List String)),
      computeOutputFilenames t .boltz fs wd = .ok fns →
      findFastaReferences t = .ok refs →
      pyBatched fns s = .ok batches →
      (fns.map boltzConf).Nodup →
      (∀ a ∈ fns, a ∉ tsv :: refs) →
      (∀ a ∈ fns.map boltzConf, a ∉ tsv :: refs ∧ a ∉ fns) →
      ("boltz_ranked_results.tsv" ∉ tsv :: refs ∧
        "boltz_ranked_results.tsv" ∉ fns ∧
        "boltz_ranked_results.tsv" ∉ fns.map boltzConf) →
      createBoltzWorkflow tsv t fs wd s = .ok (boltzJobs tsv refs fns batches) ∧
        AcyclicGraph (boltzJobs tsv refs fns batches) ∧
        (∀ a : String, (∃ j ∈ boltzJobs tsv refs fns batches, a ∈ j.outputs) →
          producersCount (boltzJobs tsv refs fns batches) a = 1)) ∧
    (∀ (tsv : String) (t : Table) (fs : FS) (wd : String) (s : Int)
        (fns refs : List String) (batches : List (List String)),
      computeOutputFilenames t .alphafold3 fs wd = .ok fns →
      findFastaReferences t = .ok refs →
      pyBatched (fns.map msaName) s = .ok batches →
      (fns.map msaName).Nodup →
      ((fns.map msaName).map af3Conf).Nodup →
      (∀ a ∈ fns, a ∉ tsv :: refs) →
      (∀ a ∈ fns.map msaName, a ∉ tsv :: refs ∧ a ∉ fns) →
      (∀ a ∈ (fns.map msaName).map af3Conf,
        a ∉ tsv :: refs ∧ a ∉ fns ∧ a ∉ fns.map msaName) →
      ("alphafold3_ranked_results.tsv" ∉ tsv :: refs ∧
        "alphafold3_ranked_results.tsv" ∉ fns ∧
        "alphafold3_ranked_results.tsv" ∉ fns.map msaName ∧
        "alphafold3_ranked_results.tsv" ∉ (fns.map msaName).map af3Conf) →
      createAlphafold3Workflow tsv t fs wd s = .ok (af3Jobs tsv refs fns batches) ∧
        AcyclicGraph (af3Jobs tsv refs fns batches) ∧
        (∀ a : String, (∃ j ∈ af3Jobs tsv refs fns batches, a ∈ j.outputs) →
          producersCount (af3Jobs tsv refs fns batches) a = 1)) := by
  refine ⟨?_, ?_, ?_⟩
  · intro tsv t fs wd fns refs hC hR hnd hfr htr hrk
    refine ⟨?_, colabfoldInvariants tsv refs fns hnd hfr htr hrk⟩
    simp [createColabfoldWorkflow, hC, hR, Bind.bind, Except.bind]
  · intro tsv t fs wd s fns refs batches hC hR hB hnd hfr htr hrk
    have hmem : ∀ b ∈ batches, ∀ x ∈ b, x ∈ fns :=
      fun b hb x hx => mem_of_mem_pyBatched hB hb hx
    have hndC : (batches.flatMap (fun b => b.map boltzConf)).Nodup := by
      rw [flatMap_map_flatten]
      exact List.Nodup.sublist
        (List.Sublist.map boltzConf (pyBatched_flatten_sublist hB)) hnd
    refine ⟨?_, boltzInvariants tsv refs fns batches hmem hndC hfr htr hrk⟩
    simp [createBoltzWorkflow, hC, hR, hB, Bind.bind, Except.bind]
  · intro tsv t fs wd s fns refs batches hC hR hB hndM hndCf hfr hms hcf hrk
    have hmem : ∀ b ∈ batches, ∀ x ∈ b, x ∈ fns.map msaName :=
      fun b hb x hx => mem_of_mem_pyBatched hB hb hx
    have hndC : (batches.flatMap (fun b => b.map af3Conf)).Nodup := by
      rw [flatMap_map_flatten]
      exact List.Nodup.sublist
        (List.Sublist.map af3Conf (pyBatched_flatten_sublist hB)) hndCf
    refine ⟨?_,
      af3Invariants tsv refs fns batches hmem hndM hndC hfr hms hcf hrk⟩
    simp [createAlphafold3Workflow, hC, hR, hB, Bind.bind, Except.bind]

/-- Witness for C1 (amended): the one-bait, one-prey graph in each of the
three modes, with batch size 1 for the batch-oriented ones. -/
theorem claimC1_amended_witness :
    (computeOutputFilenames tblBasic .colabfold fsEmpty "." = .ok ["A_B.fasta"] ∧
      findFastaReferences tblBasic = .ok [] ∧
      createColabfoldWorkflow "acclist.tsv" tblBasic fsEmpty "." =
        .ok (colabfoldJobs "acclist.tsv" [] ["A_B.fasta"]) ∧
      AcyclicGraph (colabfoldJobs "acclist.tsv" [] ["A_B.fasta"]) ∧
      (∀ a : String,
        (∃ j ∈ colabfoldJobs "acclist.tsv" [] ["A_B.fasta"], a ∈ j.outputs) →
        producersCount (colabfoldJobs "acclist.tsv" [] ["A_B.fasta"]) a = 1)) ∧
    (pyBatched ["A_B.fasta"] 1 = .ok (chunkList 1 ["A_B.fasta"]) ∧
      createBoltzWorkflow "acclist.tsv" tblBasic fsEmpty "." 1 =
        .ok (boltzJobs "acclist.tsv" [] ["A_B.fasta"] (chunkList 1 ["A_B.fasta"])) ∧
      AcyclicGraph (boltzJobs "acclist.tsv" [] ["A_B.fasta"] (chunkList 1 ["A_B.fasta"])) ∧
      (∀ a : String,
        (∃ j ∈ boltzJobs "acclist.tsv" [] ["A_B.fasta"] (chunkList 1 ["A_B.fasta"]),
          a ∈ j.outputs) →
        producersCount
          (boltzJobs "acclist.tsv" [] ["A_B.fasta"] (chunkList 1 ["A_B.fasta"])) a = 1)) ∧
    (computeOutputFilenames tblBasic .alphafold3 fsEmpty "." = .ok ["A_B.json"] ∧
      pyBatched ((["A_B.json"] : List String).map msaName) 1 =
        .ok (chunkList 1 ((["A_B.json"] : List String).map msaName)) ∧
      createAlphafold3Workflow "acclist.tsv" tblBasic fsEmpty "." 1 =
        .ok (af3Jobs "acclist.tsv" [] ["A_B.json"]
          (chunkList 1 ((["A_B.json"] : List String).map msaName))) ∧
      AcyclicGraph (af3Jobs "acclist.tsv" [] ["A_B.json"]
        (chunkList 1 ((["A_B.json"] : List String).map msaName))) ∧
      (∀ a : String,
        (∃ j ∈ af3Jobs "acclist.tsv" [] ["A_B.json"]
          (chunkList 1 ((["A_B.json"] : List String).map msaName)), a ∈ j.outputs) →
        producersCount (af3Jobs "acclist.tsv" [] ["A_B.json"]
          (chunkList 1 ((["A_B.json"] : List String).map msaName))) a = 1)) := by
  refine ⟨?_, ?_, ?_⟩
  · have h := claimC1_amended.1 "acclist.tsv" tblBasic fsEmpty "." ["A_B.fasta"] []
      rfl rfl (by decide) (by decide) (by decide) (by decide)
    exact ⟨rfl, rfl, h.1, h.2.1, h.2.2⟩
  · have h := claimC1_amended.2.1 "acclist.tsv" tblBasic fsEmpty "." 1
      ["A_B.fasta"] [] (chunkList 1 ["A_B.fasta"]) rfl rfl rfl
      (by decide) (by decide) (by decide) (by decide)
    exact ⟨rfl, h.1, h.2.1, h.2.2⟩
  · have h := claimC1_amended.2.2 "acclist.tsv" tblBasic fsEmpty "." 1
      ["A_B.json"] [] (chunkList 1 ((["A_B.json"] : List String).map msaName))
      rfl rfl rfl (by decide) (by decide) (by decide) (by decide) (by decide)
      (by decide)
    exact ⟨rfl, rfl, h.1, h.2.1, h.2.2⟩
